import Mathlib

/-!
Shallow embedding of the chainsaw core (hunt.rs, search.rs, file/evtx.rs):
the JSON document model, the mapping/group filter gate, the rule-matching
engine, the hunting orchestrator and the searcher pipeline, together with
theorems settling the specified properties.

External collaborators (the chrono datetime parser, the regex engine and
the opaque tau rule predicates) are modelled as explicit function
parameters, as the specification treats them as black-box capabilities.
-/

namespace Chainsaw

/-- Parsed hierarchical record values (serde_json::Value as used by the
decoder): strings, numbers, booleans, null, objects and arrays. -/
inductive Json where
  | str (s : String)
  | num (n : Int)
  | bool (b : Bool)
  | null
  | obj (fields : List (String × Json))
  | arr (items : List Json)
deriving Repr

/-- Object key lookup; non-objects have no keys. -/
def Json.getKey : Json → String → Option Json
  | .obj fs, k => fs.lookup k
  | _, _ => none

/-- Dotted-path navigation over nested objects, one key per segment
(the tau-engine Document::find implementation for serde_json values). -/
def Json.findParts : Json → List String → Option Json
  | j, [] => some j
  | j, p :: ps => (Json.getKey j p).bind (fun v => Json.findParts v ps)

/-- Splitting a character list on the dot separator, accumulating the
current segment in reverse. -/
def splitDotAux : List Char → List Char → List String
  | [], acc => [String.mk acc.reverse]
  | c :: cs, acc =>
    if c = '.' then String.mk acc.reverse :: splitDotAux cs []
    else splitDotAux cs (c :: acc)

/-- Split a path on dots (the behaviour of splitting on a "." separator,
written over the character list so it computes by reduction). -/
def splitDot (s : String) : List String := splitDotAux s.data []

/-- `data.find(path)`: split the path on dots and navigate. -/
def Json.find (j : Json) (path : String) : Option Json :=
  Json.findParts j (splitDot path)

/-- serde_json `as_str`: Some only for string values. -/
def Json.asStr : Json → Option String
  | .str s => some s
  | _ => none

/-- serde_json `Index`: indexing a missing key (or a non-object) yields
Null. -/
def Json.index (j : Json) (k : String) : Json :=
  (Json.getKey j k).getD Json.null

/-- tau-engine `Value::to_string`: scalar values render to a string,
objects and arrays do not. -/
def Json.tauString : Json → Option String
  | .str s => some s
  | .num n => some (toString n)
  | .bool b => some (if b then "true" else "false")
  | _ => none

/-- Timestamps (chrono NaiveDateTime) modelled as integers with the
ambient linear order; the actual datetime parser is an external
capability passed in as a `String → Option Time` parameter. -/
abbrev Time := Int

/-- A detection rule: a unique tag, presentation metadata, and the opaque
tau predicate, a boolean capability over a field-lookup view. -/
structure Rule where
  level : Option String
  tag : String
  tau : (String → Option Json) → Bool
  authors : Option (List String)
  status : Option String

/-- A Group of a Mapping: optional projection list, field-alias table
(logical name → concrete dotted path), OR-ed filter clauses (each a
conjunction of path/expected-value equalities), and a name. HashMaps are
modelled as association lists. -/
structure Group where
  default : Option (List String)
  fields : List (String × String)
  filters : List (List (String × Json))
  name : String

/-- A Mapping: tag exclusions, ordered groups, the log-format kind it
applies to, and a name. The `rules` kind discriminator of the source
struct is carried as an uninterpreted string (its type lives outside
src/ and is never consulted by the embedded operations). -/
structure Mapping where
  exclusions : List String
  groups : List Group
  kind : String
  name : String
  rulesKind : String

/-- One rule match within one group (or ungated). -/
structure Hit where
  tag : String
  group : Option String
deriving Repr, DecidableEq

/-- Output document payload. -/
structure DocumentOut where
  kind : String
  data : Json
deriving Repr

/-- Detection kind: aggregated documents or a single individual document. -/
inductive Kind where
  | aggregate (documents : List DocumentOut)
  | individual (document : DocumentOut)
deriving Repr

/-- Aggregated hits for one (document, mapping) pairing. -/
structure Detections where
  hits : List Hit
  kind : Kind
  mapping : Option String
  timestamp : Time
deriving Repr

/-- `Huntable::created` for an evtx record: read
Event.System.TimeCreated_attributes.SystemTime with `as_str().unwrap()`
and parse it. `none` models the unwrap panic (the field absent or not a
string); `some (.error _)` models the bail on an unparsable string;
`some (.ok t)` the parsed timestamp. -/
def createdRaw (parse : String → Option Time) (data : Json) : Option (Except String Time) :=
  match (((Json.index (Json.index (Json.index data "Event") "System")
      "TimeCreated_attributes").index "SystemTime")).asStr with
  | none => none
  | some s =>
    match parse s with
    | some t => some (Except.ok t)
    | none => some (Except.error
        "Failed to parse datetime from supplied events. This shouldn't happen...")

/-- Per-pair path resolution in `Huntable::hits`: the key
Event.System.EventID is looked up at the generic path first, falling back
to Event.System.EventID.#text; the key Event.System.Provider is looked up
only at Event.System.Provider_attributes.Name; any other key at its
generic path. -/
def resolveKey (data : Json) (k : String) : Option Json :=
  if k = "Event.System.EventID" then
    match Json.find data k with
    | some v => some v
    | none => Json.find data "Event.System.EventID.#text"
  else if k = "Event.System.Provider" then
    Json.find data "Event.System.Provider_attributes.Name"
  else
    Json.find data k

/-- One path/expected-value equality test: the path must resolve and both
sides must render to equal strings. -/
def pairMatches (data : Json) (k : String) (v : Json) : Bool :=
  match resolveKey data k with
  | some value =>
    match Json.tauString value, Json.tauString v with
    | some x, some y => x == y
    | _, _ => false
  | none => false

/-- A filter clause matches when it has at least one test and every test
passes (the loop's `matched` flag starts false and an empty clause never
sets it). -/
def clauseMatches (data : Json) (filter : List (String × Json)) : Bool :=
  !filter.isEmpty && filter.all (fun p => pairMatches data p.1 p.2)

/-- A document belongs to a Group when some filter clause matches. -/
def groupMatches (data : Json) (g : Group) : Bool :=
  g.filters.any (clauseMatches data)

/-- The Wrapper field view: a logical key resolves through the group's
alias table to a concrete dotted path looked up in the raw record. -/
def wrapperFind (fields : List (String × String)) (data : Json) : String → Option Json :=
  fun key => (fields.lookup key).bind (Json.find data)

/-- Rule evaluation for one matched group: iterate rules in declaration
order, skip excluded tags, collect every matching rule's tag with the
group's name; a non-matched group contributes nothing. -/
def groupHits (rules : List Rule) (excl : List String) (data : Json) (g : Group) : List Hit :=
  if groupMatches data g then
    rules.filterMap (fun r =>
      if excl.contains r.tag then none
      else if r.tau (wrapperFind g.fields data) then some ⟨r.tag, some g.name⟩
      else none)
  else []

/-- `Huntable::hits`: with a mapping, gate each group and tag; without
one, run every rule directly against the raw record (ungated mode). Both
branches return Some. -/
def evtxHits (data : Json) (rules : List Rule) : Option Mapping → Option (List Hit)
  | some m => some (m.groups.flatMap (groupHits rules m.exclusions data))
  | none => some (rules.filterMap (fun r =>
      if r.tau (Json.find data) then some ⟨r.tag, none⟩ else none))

/-- The immutable hunter state built by HunterBuilder. -/
structure HunterInner where
  mappings : List Mapping
  rules : List Rule
  fromTime : Option Time
  skip_errors : Bool
  toTime : Option Time

/-- The shared time gate of Hunter::hunt and HitsIter::next: when a bound
is set, a record at or before `from`, or at or after `to`, is skipped. -/
def timeGateSkips (fromT toT : Option Time) (ts : Time) : Bool :=
  if fromT.isSome || toT.isSome then
    (match fromT with
     | some sd => decide (ts ≤ sd)
     | none => false)
    ||
    (match toT with
     | some ed => decide (ed ≤ ts)
     | none => false)
  else false

/-- The detections Hunter::hunt accumulates for one surviving record:
ungated mode when no mappings are configured, otherwise one Detections
per mapping of kind "evtx" whose hits are nonempty. -/
def recordDetections (inner : HunterInner) (data : Json) (ts : Time) : List Detections :=
  if inner.mappings.isEmpty then
    match evtxHits data inner.rules none with
    | some hs =>
      if hs.isEmpty then []
      else [⟨hs, Kind.individual ⟨"evtx", data⟩, none, ts⟩]
    | none => []
  else
    inner.mappings.filterMap (fun m =>
      if m.kind ≠ "evtx" then none
      else
        match evtxHits data inner.rules (some m) with
        | some hs =>
          if hs.isEmpty then none
          else some ⟨hs, Kind.individual ⟨"evtx", data⟩, some m.name, ts⟩
        | none => none)

/-- Outcome of a hunt run: a panic (timestamp unwrap), an error return,
or the accumulated detections. -/
inductive HuntOutcome where
  | panicked
  | fails (msg : String)
  | ok (dets : List Detections)
deriving Repr

/-- Hunter::hunt over the decoded record stream of one file: per-record
decode failures are skipped under skip_errors and otherwise abort with
the error; timestamp failures likewise (with the message prefix);
records outside the time window are skipped; surviving records
contribute their detections in order. -/
def huntGo (parse : String → Option Time) (inner : HunterInner) :
    List (Except String Json) → HuntOutcome
  | [] => HuntOutcome.ok []
  | r :: rest =>
    match r with
    | Except.error e =>
      if inner.skip_errors then huntGo parse inner rest
      else HuntOutcome.fails e
    | Except.ok data =>
      match createdRaw parse data with
      | none => HuntOutcome.panicked
      | some (Except.error e) =>
        if inner.skip_errors then huntGo parse inner rest
        else HuntOutcome.fails ("could not get timestamp - " ++ e)
      | some (Except.ok ts) =>
        if timeGateSkips inner.fromTime inner.toTime ts then huntGo parse inner rest
        else
          match huntGo parse inner rest with
          | HuntOutcome.ok ds => HuntOutcome.ok (recordDetections inner data ts ++ ds)
          | other => other

/-- The compiled regular expression of the searcher, kept as its opaque
pattern text (the regex engine is an external collaborator). -/
abbrev Regex := String

/-- The immutable searcher state built by SearcherBuilder. -/
structure SearcherInner where
  event_id : Option Nat
  pattern : Option String
  regex : Option Regex
  fromTime : Option Time
  ignore_case : Bool
  skip_errors : Bool
  toTime : Option Time

/-- SearcherBuilder: every field optional, defaults filled in by build. -/
structure SearcherBuilder where
  event_id : Option Nat := none
  pattern : Option String := none
  regex : Option Regex := none
  fromTime : Option Time := none
  ignore_case : Option Bool := none
  skip_errors : Option Bool := none
  toTime : Option Time := none

structure Searcher where
  inner : SearcherInner

/-- SearcherBuilder::build: defaults ignore_case and skip_errors to
false and returns Ok unconditionally — no validation of pattern/regex. -/
def SearcherBuilder.build (b : SearcherBuilder) : Except String Searcher :=
  Except.ok
    { inner :=
      { event_id := b.event_id
        pattern := b.pattern
        regex := b.regex
        fromTime := b.fromTime
        ignore_case := b.ignore_case.getD false
        skip_errors := b.skip_errors.getD false
        toTime := b.toTime } }

def exceptIsOk : Except String Searcher → Bool
  | Except.ok _ => true
  | Except.error _ => false

/-- The event id the searcher compares against: the #text child when it
is present, the EventID node itself otherwise. -/
def searchEventId (data : Json) : Json :=
  let node := Json.index (Json.index (Json.index data "Event") "System") "EventID"
  match Json.index node "#text" with
  | Json.null => node
  | t => t

/-- serde_json equality of a value against a u32: a number with that
value. -/
def jsonEqNat (j : Json) (n : Nat) : Bool :=
  match j with
  | Json.num m => m == Int.ofNat n
  | _ => false

/-- HitsIter::next iterated to exhaustion over the record stream of one
file. Decode failures are always skipped; timestamp failures are skipped
under skip_errors and otherwise emitted as an error item (after which
iteration may resume); records at or outside the time window, records
failing the event-id filter and records failing the text filter are
skipped; matching records are emitted. `none` models a panic of the
(spec-modelled) created capability. `matchesRec` is the record text
filter, modelled from the spec: Searchable::matches is declared in
search.rs but its implementation is not under src/; the spec describes
it as a regex or literal substring test over the record's serialized
form, consumed here as an opaque predicate. `created` is the
Searchable::created capability, likewise declared in search.rs with the
implementation not under src/; the spec fixes it to derive the timestamp
from the same well-known structural location as Huntable::created, so
the hunter's createdRaw is the faithful instantiation. -/
def searchGo (created : Json → Option (Except String Time))
    (matchesRec : Json → Bool) (inner : SearcherInner) :
    List (Except String Json) → Option (List (Except String Json))
  | [] => some []
  | r :: rest =>
    match r with
    | Except.error _ => searchGo created matchesRec inner rest
    | Except.ok data =>
      match created data with
      | none => none
      | some (Except.error e) =>
        if inner.skip_errors then searchGo created matchesRec inner rest
        else (searchGo created matchesRec inner rest).map
          (fun l => Except.error ("could not get timestamp - " ++ e) :: l)
      | some (Except.ok ts) =>
        if timeGateSkips inner.fromTime inner.toTime ts then
          searchGo created matchesRec inner rest
        else
          match inner.event_id with
          | some eid =>
            if jsonEqNat (searchEventId data) eid then
              if matchesRec data then
                (searchGo created matchesRec inner rest).map (fun l => Except.ok data :: l)
              else searchGo created matchesRec inner rest
            else searchGo created matchesRec inner rest
          | none =>
            if matchesRec data then
              (searchGo created matchesRec inner rest).map (fun l => Except.ok data :: l)
            else searchGo created matchesRec inner rest

/-! Concrete fixtures used by counterexamples and witnesses. -/

/-- A concrete instantiation of the external datetime-parsing capability:
a few known timestamp strings parse, everything else fails. -/
def parse0 (s : String) : Option Time :=
  if s = "5" then some 5
  else if s = "6" then some 6
  else if s = "7" then some 7
  else if s = "10" then some 10
  else none

/-- A hunter with no mappings, no rules, no bounds and skip_errors off. -/
def innerStrict : HunterInner := ⟨[], [], none, false, none⟩

/-- The same hunter with skip_errors on. -/
def innerSkip : HunterInner := ⟨[], [], none, true, none⟩

/-- A record whose SystemTime field renders as timestamp 5. -/
def dataAt (s : String) : Json :=
  Json.obj [("Event", Json.obj [("System", Json.obj
    [("TimeCreated_attributes", Json.obj [("SystemTime", Json.str s)])])])]

/-- The hunter used by the C2 witness: window (5, 10), no mappings. -/
def cWindowInner : HunterInner := ⟨[], [], some 5, false, some 10⟩

/-- The searcher used by the C2 witness: window (5, 10), pattern "x". -/
def cWindowSearch : SearcherInner := ⟨none, some "x", none, some 5, false, false, some 10⟩

/-- A text filter instantiation that matches every record. -/
def matchesAll : Json → Bool := fun _ => true

/-- Formalisation of the claim's words for the path-resolution order:
for the known inconsistent fields the declared special-case fallback
path is tried before the generic path, first resolution winning. This
definition follows the specification, not the source; the source's
order is resolveKey. -/
def resolveKeySpec (data : Json) (k : String) : Option Json :=
  if k = "Event.System.EventID" then
    match Json.find data "Event.System.EventID.#text" with
    | some v => some v
    | none => Json.find data k
  else if k = "Event.System.Provider" then
    match Json.find data "Event.System.Provider_attributes.Name" with
    | some v => some v
    | none => Json.find data k
  else
    Json.find data k

/-- Record whose EventID is an object carrying its value in #text. -/
def dataNested : Json :=
  Json.obj [("Event", Json.obj [("System", Json.obj
    [("EventID", Json.obj [("#text", Json.str "4624")])])])]

/-- Record whose Provider lives only at the generic path. -/
def dataProviderPlain : Json :=
  Json.obj [("Event", Json.obj [("System", Json.obj
    [("Provider", Json.str "X")])])]

/-- Record with a plain numeric EventID used by the C3 witness. -/
def dataPlain : Json :=
  Json.obj [("Event", Json.obj [("System", Json.obj
    [("EventID", Json.num 1)])])]

/-- A rule whose predicate matches every view. -/
def ruleTrue : Rule := ⟨none, "t0", fun _ => true, none, none⟩

/-- A group whose only filter clause is empty. -/
def groupEmptyClause : Group := ⟨none, [], [[]], "g0"⟩

/-- A mapping holding only the empty-clause group. -/
def mappingEmptyClause : Mapping := ⟨[], [groupEmptyClause], "evtx", "m0", "sigma"⟩

/-- The one-test clause used by the C6 witness. -/
def filterW : List (String × Json) := [("Event.System.EventID", Json.num 1)]

/-- Group gating on EventID 1, with an alias for the logical EventID. -/
def gOne : Group :=
  ⟨none, [("EventID", "Event.System.EventID")],
   [[("Event.System.EventID", Json.num 1)]], "g1"⟩

/-- Rule with tag tagA matching every view. -/
def ruleA : Rule := ⟨none, "tagA", fun _ => true, none, none⟩

/-- Rule with tag tagB matching every view. -/
def ruleB : Rule := ⟨none, "tagB", fun _ => true, none, none⟩

/-- Mapping with no exclusions over gOne. -/
def mapPlain : Mapping := ⟨[], [gOne], "evtx", "mapPlain", "sigma"⟩

/-- Mapping excluding tagA over the same group. -/
def mapExcl : Mapping := ⟨["tagA"], [gOne], "evtx", "mapExcl", "sigma"⟩

/-- Hunter over the plain mapping used by the C7 witness. -/
def inner7 : HunterInner := ⟨[mapPlain], [ruleA, ruleB], none, false, none⟩

/-- The surviving records of a hunt, in stream order: records that
decode, timestamp successfully and pass the time gate, paired with
their timestamps. -/
def survivors (parse : String → Option Time) (fromT toT : Option Time) :
    List (Except String Json) → List (Json × Time)
  | [] => []
  | r :: rest =>
    match r with
    | Except.error _ => survivors parse fromT toT rest
    | Except.ok data =>
      match createdRaw parse data with
      | some (Except.ok ts) =>
        if timeGateSkips fromT toT ts then survivors parse fromT toT rest
        else (data, ts) :: survivors parse fromT toT rest
      | _ => survivors parse fromT toT rest

/-- A record carrying both a SystemTime and EventID 1. -/
def dataFull (s : String) : Json :=
  Json.obj [("Event", Json.obj [("System", Json.obj
    [("TimeCreated_attributes", Json.obj [("SystemTime", Json.str s)]),
     ("EventID", Json.num 1)])])]

/-- The record stream of the C9/C10 witnesses. -/
def recs9 : List (Except String Json) :=
  [Except.ok (dataFull "5"), Except.ok (dataFull "7")]

/-- The detection inner7 produces for dataFull s at timestamp t. -/
def detAt (s : String) (t : Time) : Detections :=
  ⟨[⟨"tagA", some "g1"⟩, ⟨"tagB", some "g1"⟩],
   Kind.individual ⟨"evtx", dataFull s⟩, some "mapPlain", t⟩

/-- The full detection list of the C9/C10 witness run. -/
def detList9 : List Detections := [detAt "5" 5, detAt "7" 7]

/-- C1. Counterexample to the claim as stated: with skip_errors off, a
single undecodable record makes Hunter::hunt return an error — a
per-record decode failure is not always skipped. -/
theorem hunt_decode_error_fatal_cex :
    huntGo parse0 innerStrict [Except.error "oops"] = HuntOutcome.fails "oops" := rfl

/-- C1 (amended). A per-record decode failure is skipped and the stream
continues exactly when skip_errors is set; with skip_errors off, hunt
returns the decode error. -/
theorem hunt_decode_error_honors_skip_errors
    (parse : String → Option Time) (inner : HunterInner) (e : String)
    (rest : List (Except String Json)) :
    (inner.skip_errors = true →
      huntGo parse inner (Except.error e :: rest) = huntGo parse inner rest)
    ∧ (inner.skip_errors = false →
      huntGo parse inner (Except.error e :: rest) = HuntOutcome.fails e) := by
  constructor <;> intro h <;> simp [huntGo, h]

/-- C1 witness: with skip_errors on, the undecodable record is dropped
and hunting continues with the rest of the stream. -/
theorem hunt_decode_error_honors_skip_errors_w :
    huntGo parse0 innerSkip (Except.error "oops" :: [Except.ok (dataAt "7")]) =
      huntGo parse0 innerSkip [Except.ok (dataAt "7")] :=
  (hunt_decode_error_honors_skip_errors parse0 innerSkip "oops"
    [Except.ok (dataAt "7")]).1 rfl

/-- C4. SearcherBuilder::build performs no validation: with neither a
pattern nor a regex set it still returns Ok, contradicting the required
fail-fast contract (the spec marks the permissive code as the slip). -/
theorem searcher_build_accepts_empty :
    exceptIsOk (SearcherBuilder.build {}) = true
    ∧ ({} : SearcherBuilder).pattern = none
    ∧ ({} : SearcherBuilder).regex = none :=
  ⟨rfl, rfl, rfl⟩

/-- C5. Huntable::created is not total: on a record whose SystemTime
field is absent the as_str().unwrap() panics (modelled as none) instead
of returning a timestamp error, and the panic aborts the whole hunt even
with skip_errors on; only a present-but-unparsable string yields the
per-record error the claim describes. -/
theorem created_panics_on_missing_timestamp :
    createdRaw parse0 (Json.obj []) = none
    ∧ huntGo parse0 innerStrict [Except.ok (Json.obj [])] = HuntOutcome.panicked
    ∧ huntGo parse0 innerSkip [Except.ok (Json.obj [])] = HuntOutcome.panicked
    ∧ createdRaw parse0 (dataAt "garbage") = some (Except.error
        "Failed to parse datetime from supplied events. This shouldn't happen...") :=
  ⟨rfl, rfl, rfl, rfl⟩

/-- A record whose timestamp sits exactly on a declared bound is gated
out. -/
lemma timeGate_boundary (fromT toT : Option Time) (t : Time)
    (h : fromT = some t ∨ toT = some t) : timeGateSkips fromT toT t = true := by
  rcases h with h | h <;> subst h <;> simp [timeGateSkips]

/-- A record strictly inside every declared bound passes the gate. -/
lemma timeGate_between (fromT toT : Option Time) (ts : Time)
    (h1 : ∀ sd, fromT = some sd → sd < ts) (h2 : ∀ ed, toT = some ed → ts < ed) :
    timeGateSkips fromT toT ts = false := by
  cases fromT with
  | none =>
    cases toT with
    | none => simp [timeGateSkips]
    | some ed => have hb := h2 ed rfl; simp [timeGateSkips]; exact hb
  | some sd =>
    have ha := h1 sd rfl
    cases toT with
    | none => simp [timeGateSkips]; exact ha
    | some ed => have hb := h2 ed rfl; simp [timeGateSkips]; exact ⟨ha, hb⟩

/-- C2. The time window is strictly exclusive at both boundaries: a
record whose creation timestamp equals the from or the to bound is
dropped by Hunter::hunt and by the searcher's HitsIter, and a record
strictly between every declared bound passes the shared time gate. -/
theorem time_window_strictly_exclusive
    (parse : String → Option Time) (inner : HunterInner)
    (created : Json → Option (Except String Time)) (matchesRec : Json → Bool)
    (sInner : SearcherInner) (data : Json) (rest : List (Except String Json))
    (t : Time) (fromT toT : Option Time) (ts : Time) :
    (createdRaw parse data = some (Except.ok t) →
      inner.fromTime = some t ∨ inner.toTime = some t →
      huntGo parse inner (Except.ok data :: rest) = huntGo parse inner rest)
    ∧ (created data = some (Except.ok t) →
      sInner.fromTime = some t ∨ sInner.toTime = some t →
      searchGo created matchesRec sInner (Except.ok data :: rest) =
        searchGo created matchesRec sInner rest)
    ∧ ((∀ sd, fromT = some sd → sd < ts) → (∀ ed, toT = some ed → ts < ed) →
      timeGateSkips fromT toT ts = false) := by
  refine ⟨?_, ?_, ?_⟩
  · intro hc hb
    have hg := timeGate_boundary inner.fromTime inner.toTime t hb
    simp [huntGo, hc, hg]
  · intro hc hb
    have hg := timeGate_boundary sInner.fromTime sInner.toTime t hb
    simp [searchGo, hc, hg]
  · intro h1 h2
    exact timeGate_between fromT toT ts h1 h2

/-- C2 witness: a record at exactly 5 is dropped by the hunter, one at
exactly 10 by the searcher, and timestamp 7 passes the (5, 10) gate. -/
theorem time_window_strictly_exclusive_w :
    huntGo parse0 cWindowInner [Except.ok (dataAt "5")] = huntGo parse0 cWindowInner []
    ∧ searchGo (createdRaw parse0) matchesAll cWindowSearch [Except.ok (dataAt "10")] =
      searchGo (createdRaw parse0) matchesAll cWindowSearch []
    ∧ timeGateSkips (some 5) (some 10) 7 = false :=
  ⟨(time_window_strictly_exclusive parse0 cWindowInner (createdRaw parse0) matchesAll
      cWindowSearch (dataAt "5") [] 5 (some 5) (some 10) 7).1 rfl (Or.inl rfl),
   (time_window_strictly_exclusive parse0 cWindowInner (createdRaw parse0) matchesAll
      cWindowSearch (dataAt "10") [] 10 (some 5) (some 10) 7).2.1 rfl (Or.inr rfl),
   (time_window_strictly_exclusive parse0 cWindowInner (createdRaw parse0) matchesAll
      cWindowSearch (dataAt "5") [] 5 (some 5) (some 10) 7).2.2
     (by intro sd h; cases h; decide) (by intro ed h; cases h; decide)⟩

/-- C3. Counterexample to the claim as stated: for Event.System.EventID
the code consults the generic path first, so with a nested EventID the
comparison uses the unstringifiable object and the filter test fails
even though the declared fallback (#text) resolves to the expected
value; and for Event.System.Provider the generic path is never
consulted at all, so a provider stored only there does not resolve. -/
theorem alias_fallback_order_cex :
    resolveKey dataNested "Event.System.EventID" =
      some (Json.obj [("#text", Json.str "4624")])
    ∧ resolveKeySpec dataNested "Event.System.EventID" = some (Json.str "4624")
    ∧ pairMatches dataNested "Event.System.EventID" (Json.str "4624") = false
    ∧ resolveKey dataProviderPlain "Event.System.Provider" = none
    ∧ resolveKeySpec dataProviderPlain "Event.System.Provider" = some (Json.str "X") :=
  ⟨rfl, rfl, rfl, rfl, rfl⟩

/-- C3 (amended). The code's resolution order: Event.System.EventID is
looked up at the generic path first and at Event.System.EventID.#text
only when the generic path does not resolve; Event.System.Provider is
looked up only at Event.System.Provider_attributes.Name; every other
key only at its generic path. The first path in this order that
resolves supplies the comparison value even when a later one would also
resolve. -/
theorem alias_resolution_code_order (data v : Json) (k : String) :
    (Json.find data "Event.System.EventID" = some v →
      resolveKey data "Event.System.EventID" = some v)
    ∧ (Json.find data "Event.System.EventID" = none →
      resolveKey data "Event.System.EventID" =
        Json.find data "Event.System.EventID.#text")
    ∧ resolveKey data "Event.System.Provider" =
        Json.find data "Event.System.Provider_attributes.Name"
    ∧ (k ≠ "Event.System.EventID" → k ≠ "Event.System.Provider" →
      resolveKey data k = Json.find data k) := by
  refine ⟨?_, ?_, ?_, ?_⟩
  · intro h; simp [resolveKey, h]
  · intro h; simp [resolveKey, h]
  · rfl
  · intro h1 h2; simp [resolveKey, h1, h2]

/-- C3 witness: with a plain EventID the generic path resolves first and
supplies the value, and an unknown key resolves at its generic path. -/
theorem alias_resolution_code_order_w :
    resolveKey dataPlain "Event.System.EventID" = some (Json.num 1)
    ∧ resolveKey dataPlain "Foo" = Json.find dataPlain "Foo" :=
  ⟨(alias_resolution_code_order dataPlain (Json.num 1) "Foo").1 rfl,
   (alias_resolution_code_order dataPlain (Json.num 1) "Foo").2.2.2
     (by decide) (by decide)⟩

/-- C6. Counterexample to the claim as stated: an empty filter clause
has all of its zero tests passing, yet it never matches — the matched
flag starts false and is never set — so the group does not match and an
always-matching rule still produces no hits. -/
theorem empty_clause_never_matches_cex :
    ([] : List (String × Json)).all
      (fun p => pairMatches (Json.obj []) p.1 p.2) = true
    ∧ clauseMatches (Json.obj []) [] = false
    ∧ groupMatches (Json.obj []) groupEmptyClause = false
    ∧ evtxHits (Json.obj []) [ruleTrue] (some mappingEmptyClause) = some [] :=
  ⟨rfl, rfl, rfl, rfl⟩

/-- C6 (amended). A filter clause with at least one test matches iff all
of its tests resolve and compare equal (an empty clause never matches);
one failing or unresolvable test fails the whole clause; a document
belongs to a group iff some clause matches; and a non-matching group
has no rules evaluated and contributes no hits, regardless of rule
content. -/
theorem clause_and_group_gate (data : Json) (filter : List (String × Json))
    (g : Group) (rules : List Rule) (excl : List String) :
    (filter ≠ [] →
      clauseMatches data filter = filter.all (fun p => pairMatches data p.1 p.2))
    ∧ (∀ k v, (k, v) ∈ filter → pairMatches data k v = false →
      clauseMatches data filter = false)
    ∧ (groupMatches data g = true ↔ ∃ f ∈ g.filters, clauseMatches data f = true)
    ∧ (groupMatches data g = false → groupHits rules excl data g = []) := by
  refine ⟨?_, ?_, ?_, ?_⟩
  · intro h
    cases filter with
    | nil => exact absurd rfl h
    | cons a l => simp [clauseMatches]
  · intro k v hmem hfail
    cases hall : filter.all (fun p => pairMatches data p.1 p.2) with
    | false => simp [clauseMatches, hall]
    | true => exact absurd (List.all_eq_true.mp hall ⟨k, v⟩ hmem) (by simp [hfail])
  · simp [groupMatches, List.any_eq_true]
  · intro h; simp [groupHits, h]

/-- C6 witness: a nonempty clause evaluates to the conjunction of its
tests, and the non-matching empty-clause group yields no hits for an
always-matching rule. -/
theorem clause_and_group_gate_w :
    clauseMatches dataPlain filterW =
      filterW.all (fun p => pairMatches dataPlain p.1 p.2)
    ∧ groupHits [ruleTrue] [] (Json.obj []) groupEmptyClause = [] :=
  ⟨(clause_and_group_gate dataPlain filterW groupEmptyClause [ruleTrue] []).1
      (List.cons_ne_nil _ _),
   (clause_and_group_gate (Json.obj []) filterW groupEmptyClause [ruleTrue] []).2.2.2
      rfl⟩

/-- The tags the tagging loop collects are exactly those of the
non-excluded rules whose predicate matches, in rule declaration order
(stated for arbitrary skip and match predicates). -/
lemma hits_tags_filter (p q : Rule → Bool) (gname : String) (rules : List Rule) :
    (rules.filterMap (fun r =>
      if p r then none
      else if q r then some (⟨r.tag, some gname⟩ : Hit) else none)).map Hit.tag
    = (rules.filter (fun r => !p r && q r)).map Rule.tag := by
  induction rules with
  | nil => rfl
  | cons r rs ih =>
    cases h1 : p r with
    | true => simp [List.filterMap_cons, List.filter_cons, h1, ih]
    | false =>
      cases h2 : q r with
      | true => simp [List.filterMap_cons, List.filter_cons, h1, h2, ih]
      | false => simp [List.filterMap_cons, List.filter_cons, h1, h2, ih]

/-- filterMap length equals the count of inputs whose image is Some. -/
lemma length_filterMap_countP {α β : Type} (l : List α) (f : α → Option β)
    (p : α → Bool) (h : ∀ a, (f a).isSome = p a) :
    (l.filterMap f).length = l.countP p := by
  induction l with
  | nil => rfl
  | cons a l ih =>
    have ha := h a
    cases hf : f a with
    | none =>
      rw [hf] at ha; simp at ha
      simp [List.filterMap_cons, hf, List.countP_cons, ← ha, ih]
    | some b =>
      rw [hf] at ha; simp at ha
      simp [List.filterMap_cons, hf, List.countP_cons, ← ha, ih]

/-- C7. The match engine iterates the rule set in declaration order,
skips excluded tags and collects every matching rule's tag without
short-circuiting; and for each surviving record the hunter emits exactly
one Detections per mapping of the right kind with at least one hit,
embedding all of that pairing's hits together. -/
theorem match_engine_and_detection_granularity
    (rules : List Rule) (excl : List String) (data : Json) (g : Group)
    (inner : HunterInner) (ts : Time) :
    (groupMatches data g = true →
      (groupHits rules excl data g).map Hit.tag =
        (rules.filter (fun r => !excl.contains r.tag
            && r.tau (wrapperFind g.fields data))).map Rule.tag)
    ∧ (inner.mappings ≠ [] →
      ∀ d ∈ recordDetections inner data ts,
        ∃ m ∈ inner.mappings, d.mapping = some m.name
          ∧ evtxHits data inner.rules (some m) = some d.hits ∧ d.hits ≠ [])
    ∧ (inner.mappings ≠ [] →
      (recordDetections inner data ts).length =
        inner.mappings.countP (fun m => m.kind == "evtx"
          && !(m.groups.flatMap (groupHits inner.rules m.exclusions data)).isEmpty)) := by
  refine ⟨?_, ?_, ?_⟩
  · intro h
    simp only [groupHits, h, if_true]
    exact hits_tags_filter (fun r => excl.contains r.tag)
      (fun r => r.tau (wrapperFind g.fields data)) g.name rules
  · intro hne d hd
    have hemp : inner.mappings.isEmpty = false := by
      cases hmm : inner.mappings with
      | nil => exact absurd hmm hne
      | cons a l => rfl
    simp only [recordDetections, hemp, Bool.false_eq_true, if_false] at hd
    rcases List.mem_filterMap.mp hd with ⟨m, hm, hstep⟩
    simp only [evtxHits] at hstep
    split at hstep
    · exact absurd hstep (by simp)
    · split at hstep
      next his => exact absurd hstep (by simp)
      next his =>
        rw [Option.some.injEq] at hstep
        refine ⟨m, hm, ?_, ?_, ?_⟩
        · rw [← hstep]
        · rw [← hstep]; simp [evtxHits]
        · rw [← hstep]
          intro hnil
          apply his
          have hflat : m.groups.flatMap (groupHits inner.rules m.exclusions data) = [] := hnil
          rw [hflat]
          rfl
  · intro hne
    have hemp : inner.mappings.isEmpty = false := by
      cases hmm : inner.mappings with
      | nil => exact absurd hmm hne
      | cons a l => rfl
    simp only [recordDetections, hemp, Bool.false_eq_true, if_false]
    apply length_filterMap_countP
    intro m
    simp only [evtxHits]
    by_cases hk : m.kind = "evtx"
    · rw [if_neg (by simp [hk])]
      cases his : (m.groups.flatMap (groupHits inner.rules m.exclusions data)).isEmpty with
      | true => simp [his, hk]
      | false => simp [his, hk]
    · rw [if_pos hk]
      simp [hk]

/-- C7 witness: both rules' tags are collected for the matched group in
declaration order, and one Detections is emitted for the one qualifying
mapping. -/
theorem match_engine_and_detection_granularity_w :
    (groupHits [ruleA, ruleB] [] dataPlain gOne).map Hit.tag =
      (([ruleA, ruleB]).filter (fun r => !([] : List String).contains r.tag
          && r.tau (wrapperFind gOne.fields dataPlain))).map Rule.tag
    ∧ (recordDetections inner7 dataPlain 5).length =
      inner7.mappings.countP (fun m => m.kind == "evtx"
        && !(m.groups.flatMap (groupHits inner7.rules m.exclusions dataPlain)).isEmpty) :=
  ⟨(match_engine_and_detection_granularity [ruleA, ruleB] [] dataPlain gOne
      inner7 5).1 rfl,
   (match_engine_and_detection_granularity [ruleA, ruleB] [] dataPlain gOne
      inner7 5).2.2 (List.cons_ne_nil _ _)⟩

/-- C8. Exclusions are scoped to the owning mapping: under a mapping
whose exclusions hold a tag, no hit with that tag is ever produced; and
concretely the same always-matching rule yields no hit under the mapping
excluding it while producing one under another mapping for the same
document. -/
theorem exclusions_scoped_to_mapping
    (rules : List Rule) (m : Mapping) (data : Json) (t : String) (hs : List Hit) :
    (t ∈ m.exclusions → evtxHits data rules (some m) = some hs →
      ∀ h ∈ hs, Hit.tag h ≠ t)
    ∧ evtxHits dataPlain [ruleA] (some mapExcl) = some []
    ∧ evtxHits dataPlain [ruleA] (some mapPlain) = some [⟨"tagA", some "g1"⟩] := by
  refine ⟨?_, rfl, rfl⟩
  intro ht he h hh
  have hhs : hs = m.groups.flatMap (groupHits rules m.exclusions data) := by
    simp only [evtxHits, Option.some.injEq] at he
    exact he.symm
  subst hhs
  rcases List.mem_flatMap.mp hh with ⟨g, hg, hmemg⟩
  cases hgm : groupMatches data g with
  | false => rw [groupHits, if_neg (by simp [hgm])] at hmemg; exact absurd hmemg (by simp)
  | true =>
    rw [groupHits, if_pos hgm] at hmemg
    rcases List.mem_filterMap.mp hmemg with ⟨r, _hr, heq⟩
    cases hc : m.exclusions.contains r.tag with
    | true =>
      rw [if_pos hc] at heq
      exact absurd heq (by simp)
    | false =>
      rw [if_neg (by rw [hc]; simp)] at heq
      cases hq : r.tau (wrapperFind g.fields data) with
      | false =>
        rw [if_neg (by rw [hq]; simp)] at heq
        exact absurd heq (by simp)
      | true =>
        rw [if_pos hq, Option.some.injEq] at heq
        intro habs
        have hrt : r.tag = t := by rw [← heq] at habs; exact habs
        subst hrt
        have hmem : r.tag ∈ m.exclusions := ht
        have hcc : m.exclusions.contains r.tag = true := List.elem_iff.mpr hmem
        rw [hc] at hcc
        cases hcc

/-- C8 witness: the excluded tagA produces no hit under mapExcl even
while tagB fires there, and tagA fires under mapPlain for the same
document. -/
theorem exclusions_scoped_to_mapping_w :
    evtxHits dataPlain [ruleA, ruleB] (some mapExcl) = some [⟨"tagB", some "g1"⟩]
    ∧ Hit.tag ⟨"tagB", some "g1"⟩ ≠ "tagA" :=
  ⟨rfl,
   (exclusions_scoped_to_mapping [ruleA, ruleB] mapExcl dataPlain "tagA"
      [⟨"tagB", some "g1"⟩]).1 (by simp [mapExcl]) rfl ⟨"tagB", some "g1"⟩ (by simp)⟩

/-- A successful hunt's output is the concatenation, in record order, of
each surviving record's detections. -/
lemma huntGo_ok_decomp (parse : String → Option Time) (inner : HunterInner)
    (rs : List (Except String Json)) :
    ∀ ds, huntGo parse inner rs = HuntOutcome.ok ds →
      ds = (survivors parse inner.fromTime inner.toTime rs).flatMap
        (fun p => recordDetections inner p.1 p.2) := by
  induction rs with
  | nil =>
    intro ds h
    simp only [huntGo] at h
    cases h
    rfl
  | cons r rest ih =>
    intro ds h
    cases r with
    | error e =>
      simp only [huntGo] at h
      cases hse : inner.skip_errors with
      | true =>
        rw [if_pos hse] at h
        simp only [survivors]
        exact ih ds h
      | false =>
        rw [if_neg (by rw [hse]; simp)] at h
        exact absurd h (by simp)
    | ok data =>
      simp only [huntGo] at h
      cases hcr : createdRaw parse data with
      | none =>
        simp only [hcr] at h
        exact absurd h (by simp)
      | some res =>
        cases res with
        | error e =>
          simp only [hcr] at h
          cases hse : inner.skip_errors with
          | true =>
            rw [if_pos hse] at h
            simp only [survivors, hcr]
            exact ih ds h
          | false =>
            rw [if_neg (by rw [hse]; simp)] at h
            exact absurd h (by simp)
        | ok ts =>
          simp only [hcr] at h
          cases hgate : timeGateSkips inner.fromTime inner.toTime ts with
          | true =>
            rw [if_pos hgate] at h
            simp only [survivors, hcr]
            rw [if_pos hgate]
            exact ih ds h
          | false =>
            rw [if_neg (by rw [hgate]; simp)] at h
            cases hrest : huntGo parse inner rest with
            | ok ds2 =>
              rw [hrest] at h
              simp only [HuntOutcome.ok.injEq] at h
              subst h
              simp only [survivors, hcr]
              rw [if_neg (by rw [hgate]; simp), List.flatMap_cons]
              rw [ih ds2 hrest]
            | fails msg => rw [hrest] at h; exact absurd h (by simp)
            | panicked => rw [hrest] at h; exact absurd h (by simp)

/-- C9. Hunting is deterministic — the embedding is a pure function, so
two runs on the same input agree — and a successful run's output is
ordered record-major: the concatenation over surviving records in
stream order of that record's per-mapping detections, the mappings kept
in declaration order (recordDetections walks inner.mappings in order,
and each detection's hits walk the mapping's groups in order). -/
theorem hunt_deterministic_ordered (parse : String → Option Time)
    (inner : HunterInner) (rs : List (Except String Json)) (ds : List Detections) :
    huntGo parse inner rs = huntGo parse inner rs
    ∧ (huntGo parse inner rs = HuntOutcome.ok ds →
      ds = (survivors parse inner.fromTime inner.toTime rs).flatMap
        (fun p => recordDetections inner p.1 p.2)) :=
  ⟨rfl, huntGo_ok_decomp parse inner rs ds⟩

/-- C9 witness: the concrete two-record run agrees with itself and its
output decomposes record-major over the survivors. -/
theorem hunt_deterministic_ordered_w :
    huntGo parse0 inner7 recs9 = huntGo parse0 inner7 recs9
    ∧ detList9 = (survivors parse0 inner7.fromTime inner7.toTime recs9).flatMap
        (fun p => recordDetections inner7 p.1 p.2) :=
  ⟨(hunt_deterministic_ordered parse0 inner7 recs9 detList9).1,
   (hunt_deterministic_ordered parse0 inner7 recs9 detList9).2 rfl⟩

/-- Every hit of the ungated tagging loop carries group None. -/
lemma ungated_hits_group_none (rules : List Rule) (f : String → Option Json) :
    ∀ h ∈ rules.filterMap (fun r =>
      if r.tau f then some (⟨r.tag, none⟩ : Hit) else none), Hit.group h = none := by
  intro h hh
  rcases List.mem_filterMap.mp hh with ⟨r, _, heq⟩
  cases hq : r.tau f with
  | false => rw [if_neg (by rw [hq]; simp)] at heq; exact absurd heq (by simp)
  | true =>
    rw [if_pos hq, Option.some.injEq] at heq
    rw [← heq]

/-- Every hit a group's tagging loop produces carries that group's name. -/
lemma groupHits_group (rules : List Rule) (excl : List String) (data : Json)
    (g : Group) : ∀ h ∈ groupHits rules excl data g, Hit.group h = some g.name := by
  intro h hh
  rw [groupHits] at hh
  cases hgm : groupMatches data g with
  | false => rw [if_neg (by rw [hgm]; simp)] at hh; exact absurd hh (by simp)
  | true =>
    rw [if_pos hgm] at hh
    rcases List.mem_filterMap.mp hh with ⟨r, _, heq⟩
    cases hc : excl.contains r.tag with
    | true => rw [if_pos hc] at heq; exact absurd heq (by simp)
    | false =>
      rw [if_neg (by rw [hc]; simp)] at heq
      cases hq : r.tau (wrapperFind g.fields data) with
      | false => rw [if_neg (by rw [hq]; simp)] at heq; exact absurd heq (by simp)
      | true =>
        rw [if_pos hq, Option.some.injEq] at heq
        rw [← heq]

/-- Structural invariant of the detections of one surviving record. -/
lemma recordDetections_inv (inner : HunterInner) (data : Json) (ts : Time) :
    ∀ d ∈ recordDetections inner data ts,
      (d.mapping = none → ∀ h ∈ d.hits, Hit.group h = none)
      ∧ (∀ nm, d.mapping = some nm → ∃ m, m ∈ inner.mappings ∧ Mapping.name m = nm ∧
          ∀ h ∈ d.hits, ∃ g, g ∈ m.groups ∧ Hit.group h = some g.name) := by
  intro d hd
  cases hemp : inner.mappings.isEmpty with
  | true =>
    simp only [recordDetections] at hd
    rw [if_pos hemp] at hd
    simp only [evtxHits] at hd
    cases his : (inner.rules.filterMap (fun r =>
        if r.tau (Json.find data) then some (⟨r.tag, none⟩ : Hit) else none)).isEmpty with
    | true => rw [if_pos his] at hd; exact absurd hd (by simp)
    | false =>
      rw [if_neg (by rw [his]; simp)] at hd
      have hdd := List.mem_singleton.mp hd
      subst hdd
      constructor
      · intro _ h hh
        exact ungated_hits_group_none inner.rules (Json.find data) h hh
      · intro nm hnm
        exact absurd hnm (by simp)
  | false =>
    simp only [recordDetections, hemp, Bool.false_eq_true, if_false] at hd
    rcases List.mem_filterMap.mp hd with ⟨m, hm, hstep⟩
    simp only [evtxHits] at hstep
    split at hstep
    · exact absurd hstep (by simp)
    · split at hstep
      next his => exact absurd hstep (by simp)
      next his =>
        rw [Option.some.injEq] at hstep
        subst hstep
        constructor
        · intro habs; exact absurd habs (by simp)
        · intro nm hnm
          refine ⟨m, hm, ?_, ?_⟩
          · exact Option.some.inj hnm
          · intro h hh
            have hh' : h ∈ m.groups.flatMap (groupHits inner.rules m.exclusions data) := hh
            rcases List.mem_flatMap.mp hh' with ⟨g, hg, hmemg⟩
            exact ⟨g, hg, groupHits_group inner.rules m.exclusions data g h hmemg⟩

/-- C10. Provenance invariant of every Detections value a successful
hunt produces: a detection labelled with a mapping name only carries
hits whose group is a group declared in a configured mapping of that
name, and an unlabelled (ungated) detection only carries hits with no
group. -/
theorem detections_group_provenance (parse : String → Option Time)
    (inner : HunterInner) (rs : List (Except String Json)) (ds : List Detections) :
    huntGo parse inner rs = HuntOutcome.ok ds →
    ∀ d ∈ ds,
      (d.mapping = none → ∀ h ∈ d.hits, Hit.group h = none)
      ∧ (∀ nm, d.mapping = some nm → ∃ m, m ∈ inner.mappings ∧ Mapping.name m = nm ∧
          ∀ h ∈ d.hits, ∃ g, g ∈ m.groups ∧ Hit.group h = some g.name) := by
  intro h d hd
  rw [huntGo_ok_decomp parse inner rs ds h] at hd
  rcases List.mem_flatMap.mp hd with ⟨p, _, hdp⟩
  exact recordDetections_inv inner p.1 p.2 d hdp

/-- C10 witness: the invariant instantiated at the first detection of
the concrete two-record run. -/
theorem detections_group_provenance_w :
    ((detAt "5" 5).mapping = none → ∀ h ∈ (detAt "5" 5).hits, Hit.group h = none)
    ∧ (∀ nm, (detAt "5" 5).mapping = some nm →
      ∃ m, m ∈ inner7.mappings ∧ Mapping.name m = nm ∧
        ∀ h ∈ (detAt "5" 5).hits, ∃ g, g ∈ m.groups ∧ Hit.group h = some g.name) :=
  detections_group_provenance parse0 inner7 recs9 detList9 rfl (detAt "5" 5)
    (List.mem_cons_self _ _)

end Chainsaw
